import Mathlib

/-!
Shallow embedding of `src/mapView.ts` (obsidian-map-view): the versioned
map-state machine (`updateMapToState`), the marker reconciler
(`updateMapMarkers`), the tag query engine (`getFileListByQuery`), the
auto-fit helper (`autoFitMapToMarkers`) and the candidate-state
constructors (`setState`, `zoomToLocation`, the reset button and the
tag-box change handler).

External collaborators (the leaflet drawing surface, the vault, the
metadata cache, `buildMarkers` from `src/markers`) are modelled as
parameters or as observable effect records; rendered leaflet handles are
modelled as `Nat` identifiers drawn from a fresh-handle counter, so that
"the same handle" and "a newly created handle" are distinguishable.
-/

/-- Geographic coordinate (`leaflet.LatLng`).  The relevant code never
computes on coordinates, it only stores and forwards them, so an abstract
pair of integers is a faithful carrier. -/
structure LatLng where
  lat : Int
  lng : Int
deriving DecidableEq, Repr

/-- The `MapState` type of `src/mapView.ts` (lines 15-20). -/
structure MapState where
  mapZoom : Nat
  mapCenter : LatLng
  tags : List String
  version : Nat
deriving DecidableEq, Repr

/-- A vault file (`TFile`); only its name is used by the embedded code. -/
structure TFile where
  name : String
deriving DecidableEq, Repr

/-- One entry of `fileCache.tags`: the code reads its `.tag` field. -/
structure TagInFile where
  tag : String
deriving DecidableEq, Repr

/-- The slice of the metadata cache entry the code reads
(`fileCache.tags`); `none` models an absent/undefined `tags` field,
`some []` an (empty but truthy) array. -/
structure FileCache where
  tags : Option (List TagInFile)
deriving DecidableEq, Repr

/-- Modelled from the spec: the `FileMarker` descriptor of `src/markers`
(not part of the provided sources) — stable `id`, geographic `location`,
owning `file`, optional `fileOffset` and `icon`, and the live rendered
handle `mapMarker` (a `Nat` handle identifier here; `none` until drawn). -/
structure FileMarker where
  id : String
  location : LatLng
  file : TFile
  fileOffset : Option Nat := none
  icon : Option String := none
  mapMarker : Option Nat := none
deriving DecidableEq, Repr

/-- `MarkersMap = Map<id, FileMarker>`, modelled as an association list
(a well-formed JS `Map` has pairwise-distinct keys, stated as a `Nodup`
hypothesis where needed). -/
abbrev MarkersMap := List (String × FileMarker)

/-- `Map.get` (first entry with the key). -/
def mapGet (m : MarkersMap) (k : String) : Option FileMarker :=
  (m.find? (fun p => p.1 == k)).map Prod.snd

/-- `Map.set`: replace in place when the key is present, else append. -/
def mapSet (m : MarkersMap) (k : String) (v : FileMarker) : MarkersMap :=
  if m.any (fun p => p.1 == k) then
    m.map (fun p => if p.1 == k then (k, v) else p)
  else m ++ [(k, v)]

/-- `Map.delete` (removes the entry with the key). -/
def mapDelete (m : MarkersMap) (k : String) : MarkersMap :=
  m.eraseP (fun p => p.1 == k)

/-- `leaflet.marker(...).addTo(map)` in the reconciler's "new marker"
branch: attach a freshly allocated rendered handle to the descriptor. -/
def createMapMarker (m : FileMarker) (handle : Nat) : FileMarker :=
  { m with mapMarker := some handle }

/-- The loop of `updateMapMarkers` (mapView.ts lines 263-295): walk the
fresh list; a fresh id already drawn carries the existing entry forward
verbatim into the result and is deleted from the drawn map ("claimed");
an unseen id gets a newly created rendered handle.  Returns the result
map, the unclaimed remainder of the drawn map, and the handle counter. -/
def updateMapMarkersLoop (drawn : MarkersMap) (fresh : List FileMarker)
    (acc : MarkersMap) (nextHandle : Nat) : MarkersMap × MarkersMap × Nat :=
  match fresh with
  | [] => (acc, drawn, nextHandle)
  | marker :: rest =>
    match mapGet drawn marker.id with
    | some existing =>
      updateMapMarkersLoop (mapDelete drawn marker.id) rest
        (mapSet acc marker.id existing) nextHandle
    | none =>
      updateMapMarkersLoop drawn rest
        (mapSet acc marker.id (createMapMarker marker nextHandle)) (nextHandle + 1)

/-- `updateMapMarkers` (mapView.ts lines 261-300): reconcile, then remove
from the drawing surface the handle of every unclaimed drawn entry
(`value.mapMarker.removeFrom(map)`), and install the result map as the
authoritative drawn set.  Returns (new drawn map, removed handles in
order, next fresh handle). -/
def updateMapMarkers (drawn : MarkersMap) (fresh : List FileMarker)
    (nextHandle : Nat) : MarkersMap × List (Option Nat) × Nat :=
  let r := updateMapMarkersLoop drawn fresh [] nextHandle
  (r.1, r.2.1.map (fun p => p.2.mapMarker), r.2.2)

/-- `autoFitMapToMarkers` (mapView.ts lines 302-308): when at least one
marker is drawn, call `fitBounds` on the markers' locations; the returned
value is the `fitBounds` request, `none` when the surface is untouched. -/
def autoFitMapToMarkers (markers : MarkersMap) : Option (List LatLng) :=
  if markers.length > 0 then
    some (markers.map (fun p => p.2.location))
  else none

/-- The mutable fields owned by the state machine: the committed
`this.state`, the drawn `this.display.markers`, and the fresh-handle
counter standing for the drawing surface's marker allocator. -/
structure MachineState where
  state : MapState
  markers : MarkersMap
  nextHandle : Nat
deriving DecidableEq, Repr

/-- The observable drawing-surface effects of one successful commit:
the tag box resync (`tagsBox.setValue`), the `map.setView` call, and the
`fitBounds` request when auto-fit ran (`none` = `fitBounds` not called). -/
structure CommitEffects where
  tagsBoxText : String
  view : LatLng × Nat
  fit : Option (List LatLng)
deriving DecidableEq, Repr

/-- The commit half of `updateMapToState` (mapView.ts lines 227-237),
resumed after `buildMarkers` produced `newMarkers`: if the candidate's
version is lower than the committed version the whole result is
discarded (no effects, state untouched); otherwise the candidate is
committed, the reconciler runs, the tag box and the viewport are set and
auto-fit optionally runs. -/
def updateMapToStateFull (s : MachineState) (candidate : MapState)
    (newMarkers : List FileMarker) (autoFit : Bool) :
    MachineState × Option CommitEffects :=
  if candidate.version < s.state.version then
    (s, none)
  else
    let r := updateMapMarkers s.markers newMarkers s.nextHandle
    (⟨candidate, r.1, r.2.2⟩,
     some { tagsBoxText :=
              String.intercalate "," (candidate.tags.filter (fun t => t.length > 0)),
            view := (candidate.mapCenter, candidate.mapZoom),
            fit := if autoFit then autoFitMapToMarkers r.1 else none })

/-- The state transition of one completed `updateMapToState` call
(effects dropped; `autoFit` does not touch the machine state). -/
def updateMapToStateStep (s : MachineState) (candidate : MapState)
    (newMarkers : List FileMarker) : MachineState :=
  (updateMapToStateFull s candidate newMarkers false).1

/-- A completed asynchronous request: the candidate state it was issued
with and the marker list its `buildMarkers` produced. -/
abbrev Completion := MapState × List FileMarker

/-- Run a batch of completed requests against the machine in their
completion order. -/
def runCompletions (s : MachineState) (cs : List Completion) : MachineState :=
  cs.foldl (fun acc c => updateMapToStateStep acc c.1 c.2) s

/-- Maximum version among a batch of issued requests. -/
def maxIssuedVersion (reqs : List Completion) : Nat :=
  (reqs.map (fun c => c.1.version)).foldl max 0

/-- `getFileListByQuery`'s per-file match (mapView.ts lines 244-254):
with a non-empty tag query the file matches only when its metadata-cache
entry exists, has a truthy `tags` field, and one of its tags is in the
query (`tags.indexOf(tagInFile.tag) > -1`); an empty query matches all. -/
def fileMatchesQuery (fileCache : TFile → Option FileCache)
    (tags : List String) (file : TFile) : Bool :=
  if tags.length > 0 then
    match fileCache file with
    | some fc =>
      match fc.tags with
      | some fileTags => fileTags.any (fun tagInFile => tags.contains tagInFile.tag)
      | none => false
    | none => false
  else true

/-- `getFileListByQuery` (mapView.ts lines 240-259): push every matching
file of the vault, in vault order. -/
def getFileListByQuery (allFiles : List TFile)
    (fileCache : TFile → Option FileCache) (tags : List String) : List TFile :=
  allFiles.filter (fileMatchesQuery fileCache tags)

/-- The sentinel version `setState` forces (mapView.ts line 54:
`state.version = 100`). -/
def SETSTATE_VERSION : Nat := 100

/-- `setState` (mapView.ts lines 50-57): the host-provided state is given
the sentinel version before being handed to `updateMapToState`. -/
def setStateCandidate (incoming : MapState) : MapState :=
  { incoming with version := SETSTATE_VERSION }

/-- `zoomToLocation` (mapView.ts lines 63-71): keep the committed tags,
take the configured go-from-note zoom, bump the version by 1. -/
def zoomToLocationCandidate (committed : MapState) (location : LatLng)
    (zoomOnGoFromNote : Nat) : MapState :=
  { mapCenter := location, mapZoom := zoomOnGoFromNote,
    tags := committed.tags, version := committed.version + 1 }

/-- The Reset button's candidate (mapView.ts lines 109-116): configured
defaults with the version bumped by 1. -/
def resetCandidate (committed : MapState) (defZoom : Nat) (defCenter : LatLng)
    (defTags : List String) : MapState :=
  { mapZoom := defZoom, mapCenter := defCenter, tags := defTags,
    version := committed.version + 1 }

/-- JS `String.prototype.split(',')` on the underlying characters:
`"".split(',') = [""]`, separators at the ends produce empty tokens. -/
def splitCommaChars (cs : List Char) : List (List Char) :=
  match cs with
  | [] => [[]]
  | c :: rest =>
    if c = ',' then [] :: splitCommaChars rest
    else
      match splitCommaChars rest with
      | [] => [[c]]
      | t :: ts => (c :: t) :: ts

/-- The tag-box parse (mapView.ts line 88):
`tagsBox.split(',').filter(t => t.length > 0)`. -/
def parseTagsBox (text : String) : List String :=
  ((splitCommaChars text.toList).map (fun cs => String.mk cs)).filter
    (fun t => t.length > 0)

/-- The tag-box change handler (mapView.ts lines 87-90): overwrite the
committed state's `tags` in place with the parsed text and hand that
state, version unchanged, to `updateMapToState` with
`autoFit = settings.autoZoom`. -/
def tagsBoxOnChange (committed : MapState) (text : String) (autoZoom : Bool) :
    MapState × Bool :=
  ({ committed with tags := parseTagsBox text }, autoZoom)

/-- The fallible version of `updateMapToState` (mapView.ts lines 224-238):
the query and the asynchronous `buildMarkers` run first; only then is the
version check done and the machine state mutated.  An exception from
either collaborator propagates as `Except.error`. -/
def updateMapToStateE (query : List String → Except String (List TFile))
    (build : List TFile → Except String (List FileMarker))
    (s : MachineState) (candidate : MapState) (autoFit : Bool) :
    Except String (MachineState × Option CommitEffects) :=
  match query candidate.tags with
  | .error e => .error e
  | .ok files =>
    match build files with
    | .error e => .error e
    | .ok newMarkers => .ok (updateMapToStateFull s candidate newMarkers autoFit)

/-- What the owning `MapView` object holds after the call: an uncaught
exception leaves `this.state` and `this.display` exactly as they were,
because the failing statement precedes every mutation. -/
def runUpdateMapToStateE (query : List String → Except String (List TFile))
    (build : List TFile → Except String (List FileMarker))
    (s : MachineState) (candidate : MapState) (autoFit : Bool) : MachineState :=
  match updateMapToStateE query build s candidate autoFit with
  | .error _ => s
  | .ok r => r.1

/-- Test-corpus fixture: a file tagged `#x`. -/
def xFile : TFile := ⟨"x.md"⟩

/-- Test-corpus fixture: metadata cache giving `xFile` the single tag `#x`. -/
def xCache : TFile → Option FileCache :=
  fun f => if f = xFile then some ⟨some [⟨"#x"⟩]⟩ else none

/-- Test-corpus fixture: a file with no metadata-cache entry. -/
def untaggedFile : TFile := ⟨"plain.md"⟩

/-! ### State-machine helper lemmas -/

theorem updateMapToStateStep_discard (s : MachineState) (c : MapState)
    (nm : List FileMarker) (h : c.version < s.state.version) :
    updateMapToStateStep s c nm = s := by
  simp [updateMapToStateStep, updateMapToStateFull, h]

theorem updateMapToStateStep_commit (s : MachineState) (c : MapState)
    (nm : List FileMarker) (h : ¬ c.version < s.state.version) :
    (updateMapToStateStep s c nm).state = c := by
  simp [updateMapToStateStep, updateMapToStateFull, h]

theorem updateMapToStateStep_version (s : MachineState) (c : MapState)
    (nm : List FileMarker) :
    (updateMapToStateStep s c nm).state.version = max s.state.version c.version := by
  by_cases h : c.version < s.state.version
  · rw [updateMapToStateStep_discard s c nm h]; omega
  · rw [updateMapToStateStep_commit s c nm h]; omega

theorem runCompletions_version (s : MachineState) (cs : List Completion) :
    (runCompletions s cs).state.version =
      cs.foldl (fun a c => max a c.1.version) s.state.version := by
  induction cs generalizing s with
  | nil => rfl
  | cons c rest ih =>
    show (runCompletions (updateMapToStateStep s c.1 c.2) rest).state.version = _
    rw [ih, List.foldl_cons, updateMapToStateStep_version]

theorem foldl_max_eq_max (b : Nat) (l : List Nat) :
    l.foldl max b = max b (l.foldl max 0) := by
  induction l generalizing b with
  | nil => simp
  | cons x l ih =>
    simp only [List.foldl_cons]
    rw [ih (max b x), ih (max 0 x)]
    omega

theorem foldl_max_perm {l₁ l₂ : List Nat} (h : l₁.Perm l₂) (b : Nat) :
    l₁.foldl max b = l₂.foldl max b := by
  induction h generalizing b with
  | nil => rfl
  | cons x _ ih => simp only [List.foldl_cons]; exact ih _
  | swap x y l =>
    simp only [List.foldl_cons]
    have : max (max b y) x = max (max b x) y := by omega
    rw [this]
  | trans _ _ ih₁ ih₂ => rw [ih₁, ih₂]

/-! ### C1 -/

/-- C1: whatever order the asynchronous marker builds of a batch of
`updateMapToState` requests with distinct versions complete in, the
committed version never decreases per completion, a completion whose
candidate version is strictly lower than the committed version leaves the
machine (committed state and drawn markers) untouched, and the final
committed version is the maximum version among the issued requests. -/
theorem updateMapToState_monotonic_commit
    (init : MachineState) (reqs comps : List Completion)
    (hperm : comps.Perm reqs)
    (hdistinct : (reqs.map (fun c => c.1.version)).Nodup)
    (hinit : init.state.version ≤ maxIssuedVersion reqs) :
    (∀ (s : MachineState) (c : Completion),
        s.state.version ≤ (updateMapToStateStep s c.1 c.2).state.version) ∧
    (∀ (s : MachineState) (c : Completion), c.1.version < s.state.version →
        updateMapToStateStep s c.1 c.2 = s) ∧
    (runCompletions init comps).state.version = maxIssuedVersion reqs := by
  refine ⟨?_, ?_, ?_⟩
  · intro s c
    rw [updateMapToStateStep_version]
    omega
  · intro s c h
    exact updateMapToStateStep_discard s c.1 c.2 h
  · rw [runCompletions_version, ← List.foldl_map,
      foldl_max_perm (hperm.map (fun c => c.1.version)), foldl_max_eq_max]
    unfold maxIssuedVersion at hinit ⊢
    omega

/-- C1 witness: two requests with versions 1 and 2, completing in reverse
order against an initial committed version 0: the final version is 2. -/
theorem updateMapToState_monotonic_commit_witness :
    ([((⟨12, ⟨2, 2⟩, [], 2⟩ : MapState), ([] : List FileMarker)),
      (⟨11, ⟨1, 1⟩, [], 1⟩, [])].Perm
     [((⟨11, ⟨1, 1⟩, [], 1⟩ : MapState), ([] : List FileMarker)),
      (⟨12, ⟨2, 2⟩, [], 2⟩, [])]) ∧
    (runCompletions ⟨⟨10, ⟨0, 0⟩, [], 0⟩, [], 0⟩
        [(⟨12, ⟨2, 2⟩, [], 2⟩, []), (⟨11, ⟨1, 1⟩, [], 1⟩, [])]).state.version =
      maxIssuedVersion [(⟨11, ⟨1, 1⟩, [], 1⟩, []), (⟨12, ⟨2, 2⟩, [], 2⟩, [])] :=
  ⟨by decide,
   (updateMapToState_monotonic_commit ⟨⟨10, ⟨0, 0⟩, [], 0⟩, [], 0⟩
      [(⟨11, ⟨1, 1⟩, [], 1⟩, []), (⟨12, ⟨2, 2⟩, [], 2⟩, [])]
      [(⟨12, ⟨2, 2⟩, [], 2⟩, []), (⟨11, ⟨1, 1⟩, [], 1⟩, [])]
      (by decide) (by decide) (by decide)).2.2⟩

/-! ### C2 -/

/-- C2 counterexample: a candidate with version equal to the committed
version (and a different center) does overwrite the committed state —
the guard discards only strictly lower versions. -/
theorem updateMapToState_equal_version_overwrites :
    (MapState.mk 10 ⟨3, 4⟩ [] 1).version = (MapState.mk 10 ⟨1, 2⟩ [] 1).version ∧
    (updateMapToStateStep ⟨⟨10, ⟨1, 2⟩, [], 1⟩, [], 0⟩ ⟨10, ⟨3, 4⟩, [], 1⟩ []).state =
      ⟨10, ⟨3, 4⟩, [], 1⟩ ∧
    (MapState.mk 10 ⟨3, 4⟩ [] 1) ≠ ⟨10, ⟨1, 2⟩, [], 1⟩ := by
  decide

/-- C2 amended: an `updateMapToState` call never replaces a committed
state whose version is *strictly greater* than the candidate's; a
candidate whose version equals (or exceeds) the committed version does
become the committed state. -/
theorem updateMapToState_version_guard
    (s : MachineState) (candidate : MapState) (nm : List FileMarker) :
    (candidate.version < s.state.version →
      updateMapToStateStep s candidate nm = s) ∧
    (s.state.version ≤ candidate.version →
      (updateMapToStateStep s candidate nm).state = candidate) := by
  constructor
  · intro h
    exact updateMapToStateStep_discard s candidate nm h
  · intro h
    exact updateMapToStateStep_commit s candidate nm (by omega)

/-- C2 amended witness: a version-0 candidate is discarded against a
committed version 5; a version-5 candidate commits against it. -/
theorem updateMapToState_version_guard_witness :
    updateMapToStateStep ⟨⟨10, ⟨1, 2⟩, [], 5⟩, [], 0⟩ ⟨10, ⟨3, 4⟩, [], 0⟩ [] =
      ⟨⟨10, ⟨1, 2⟩, [], 5⟩, [], 0⟩ ∧
    (updateMapToStateStep ⟨⟨10, ⟨1, 2⟩, [], 5⟩, [], 0⟩ ⟨10, ⟨3, 4⟩, [], 5⟩ []).state =
      ⟨10, ⟨3, 4⟩, [], 5⟩ :=
  ⟨(updateMapToState_version_guard ⟨⟨10, ⟨1, 2⟩, [], 5⟩, [], 0⟩ ⟨10, ⟨3, 4⟩, [], 0⟩ []).1
      (by decide),
   (updateMapToState_version_guard ⟨⟨10, ⟨1, 2⟩, [], 5⟩, [], 0⟩ ⟨10, ⟨3, 4⟩, [], 5⟩ []).2
      (by decide)⟩

/-! ### C3 -/

set_option maxRecDepth 4000 in
/-- C3 counterexample: `setState` forces the constant version 100, which
is *not* strictly greater than every organically reachable committed
version: after 101 zoom-to-location commits from the initial version 0
the committed version is 101, the forced restore version 100 is lower,
and the restore's completion is discarded — the external restore loses
the race instead of always winning it. -/
theorem setState_sentinel_loses :
    (Nat.iterate
        (fun s : MachineState =>
          updateMapToStateStep s (zoomToLocationCandidate s.state ⟨0, 0⟩ 15) [])
        101 ⟨⟨5, ⟨0, 0⟩, [], 0⟩, [], 0⟩).state.version = 101 ∧
    (setStateCandidate ⟨7, ⟨9, 9⟩, [], 0⟩).version <
      (Nat.iterate
        (fun s : MachineState =>
          updateMapToStateStep s (zoomToLocationCandidate s.state ⟨0, 0⟩ 15) [])
        101 ⟨⟨5, ⟨0, 0⟩, [], 0⟩, [], 0⟩).state.version ∧
    updateMapToStateStep
        (Nat.iterate
          (fun s : MachineState =>
            updateMapToStateStep s (zoomToLocationCandidate s.state ⟨0, 0⟩ 15) [])
          101 ⟨⟨5, ⟨0, 0⟩, [], 0⟩, [], 0⟩)
        (setStateCandidate ⟨7, ⟨9, 9⟩, [], 0⟩) [] =
      (Nat.iterate
        (fun s : MachineState =>
          updateMapToStateStep s (zoomToLocationCandidate s.state ⟨0, 0⟩ 15) [])
        101 ⟨⟨5, ⟨0, 0⟩, [], 0⟩, [], 0⟩) := by
  decide

/-- C3 amended: `setState` forces the constant sentinel version 100 onto
its candidate; that version strictly exceeds the committed version (and
the restore therefore commits) only while the committed version is below
100, i.e. for fewer than 100 organic version-incrementing requests from
the initial version 0. -/
theorem setState_sentinel_wins_below_100
    (s : MachineState) (incoming : MapState) (nm : List FileMarker)
    (h : s.state.version < SETSTATE_VERSION) :
    s.state.version < (setStateCandidate incoming).version ∧
    (updateMapToStateStep s (setStateCandidate incoming) nm).state =
      setStateCandidate incoming := by
  refine ⟨h, updateMapToStateStep_commit _ _ _ ?_⟩
  simp only [setStateCandidate]
  omega

/-- C3 amended witness: against a committed version 99, a restore's
forced version 100 wins. -/
theorem setState_sentinel_wins_below_100_witness :
    (MachineState.mk ⟨5, ⟨0, 0⟩, [], 99⟩ [] 0).state.version <
      (setStateCandidate ⟨7, ⟨9, 9⟩, [], 0⟩).version ∧
    (updateMapToStateStep ⟨⟨5, ⟨0, 0⟩, [], 99⟩, [], 0⟩
        (setStateCandidate ⟨7, ⟨9, 9⟩, [], 0⟩) []).state =
      setStateCandidate ⟨7, ⟨9, 9⟩, [], 0⟩ :=
  setState_sentinel_wins_below_100 ⟨⟨5, ⟨0, 0⟩, [], 99⟩, [], 0⟩ ⟨7, ⟨9, 9⟩, [], 0⟩ []
    (by decide)

/-! ### C6 -/

/-- C6 counterexample: the tag-box change handler parses the text but
does *not* increment the version — against a committed version 5 the
candidate it hands to `updateMapToState` still has version 5, not 6. -/
theorem tagsBoxOnChange_no_version_bump :
    (tagsBoxOnChange ⟨10, ⟨0, 0⟩, [], 5⟩ "#x" true).1.tags = ["#x"] ∧
    (tagsBoxOnChange ⟨10, ⟨0, 0⟩, [], 5⟩ "#x" true).1.version ≠
      (MapState.mk 10 ⟨0, 0⟩ [] 5).version + 1 := by
  constructor
  · decide
  · decide

/-- C6 amended: the tag-box change handler parses the comma-separated
text dropping empty tokens into `tags`, leaves the version *unchanged*
(equal to the committed version — the in-place-mutated committed state
itself is the candidate), and hands it to the versioned update protocol
with `autoFit = settings.autoZoom`; the equal version still commits. -/
theorem tagsBoxOnChange_spec
    (committed : MapState) (text : String) (autoZoom : Bool)
    (mk : MarkersMap) (n : Nat) (nm : List FileMarker) :
    (tagsBoxOnChange committed text autoZoom).1.tags = parseTagsBox text ∧
    (tagsBoxOnChange committed text autoZoom).1.version = committed.version ∧
    (tagsBoxOnChange committed text autoZoom).2 = autoZoom ∧
    (updateMapToStateStep ⟨committed, mk, n⟩
        (tagsBoxOnChange committed text autoZoom).1 nm).state =
      (tagsBoxOnChange committed text autoZoom).1 := by
  refine ⟨rfl, rfl, rfl, updateMapToStateStep_commit _ _ _ ?_⟩
  simp [tagsBoxOnChange]

/-! ### C8 -/

/-- C8: when the document query or the marker build fails, the call
propagates the failure and mutates nothing: the committed state, the
drawn-marker map and the handle counter are exactly as before the call,
and no commit effects are produced. -/
theorem updateMapToState_fail_soft
    (query : List String → Except String (List TFile))
    (build : List TFile → Except String (List FileMarker))
    (s : MachineState) (candidate : MapState) (autoFit : Bool)
    (hfail : (∃ e, query candidate.tags = .error e) ∨
             (∃ files e, query candidate.tags = .ok files ∧ build files = .error e)) :
    runUpdateMapToStateE query build s candidate autoFit = s ∧
    ∃ e, updateMapToStateE query build s candidate autoFit = .error e := by
  rcases hfail with ⟨e, he⟩ | ⟨files, e, hq, hb⟩
  · refine ⟨?_, e, ?_⟩ <;>
      simp [runUpdateMapToStateE, updateMapToStateE, he]
  · refine ⟨?_, e, ?_⟩ <;>
      simp [runUpdateMapToStateE, updateMapToStateE, hq, hb]

/-- C8 witness: a failing query and a failing build, each against a
concrete machine state, leave it untouched. -/
theorem updateMapToState_fail_soft_witness :
    runUpdateMapToStateE (fun _ => .error "query failed")
        (fun _ => .ok []) ⟨⟨10, ⟨1, 2⟩, [], 3⟩, [], 0⟩ ⟨10, ⟨3, 4⟩, [], 4⟩ true =
      ⟨⟨10, ⟨1, 2⟩, [], 3⟩, [], 0⟩ ∧
    runUpdateMapToStateE (fun _ => .ok [⟨"a.md"⟩])
        (fun _ => .error "build failed") ⟨⟨10, ⟨1, 2⟩, [], 3⟩, [], 0⟩ ⟨10, ⟨3, 4⟩, [], 4⟩ true =
      ⟨⟨10, ⟨1, 2⟩, [], 3⟩, [], 0⟩ :=
  ⟨(updateMapToState_fail_soft (fun _ => .error "query failed") (fun _ => .ok [])
      ⟨⟨10, ⟨1, 2⟩, [], 3⟩, [], 0⟩ ⟨10, ⟨3, 4⟩, [], 4⟩ true
      (Or.inl ⟨"query failed", rfl⟩)).1,
   (updateMapToState_fail_soft (fun _ => .ok [⟨"a.md"⟩]) (fun _ => .error "build failed")
      ⟨⟨10, ⟨1, 2⟩, [], 3⟩, [], 0⟩ ⟨10, ⟨3, 4⟩, [], 4⟩ true
      (Or.inr ⟨[⟨"a.md"⟩], "build failed", rfl, rfl⟩)).1⟩

/-! ### C10 -/

/-- C10: `autoFitMapToMarkers` on an empty drawn map never issues a
`fitBounds` request, so a commit with the auto-fit flag set whose
reconciliation produces zero markers leaves the viewport exactly where
`setView` put it: at the candidate state's center and zoom. -/
theorem autoFitMapToMarkers_empty_noop
    (s : MachineState) (candidate : MapState) (newMarkers : List FileMarker)
    (hge : s.state.version ≤ candidate.version)
    (hzero : (updateMapMarkers s.markers newMarkers s.nextHandle).1 = []) :
    autoFitMapToMarkers [] = none ∧
    (updateMapToStateFull s candidate newMarkers true).2 =
      some ⟨String.intercalate "," (candidate.tags.filter (fun t => t.length > 0)),
            (candidate.mapCenter, candidate.mapZoom), none⟩ := by
  refine ⟨rfl, ?_⟩
  have h : ¬ candidate.version < s.state.version := by omega
  simp only [updateMapToStateFull, if_neg h, hzero]
  rfl

/-- C10 witness: a drawn marker under id "B", an empty fresh list and an
auto-fitting commit: `fitBounds` is not called and the viewport is the
candidate's center and zoom. -/
theorem autoFitMapToMarkers_empty_noop_witness :
    autoFitMapToMarkers [] = none ∧
    (updateMapToStateFull
        ⟨⟨10, ⟨1, 2⟩, [], 3⟩, [("B", ⟨"B", ⟨8, 8⟩, ⟨"b.md"⟩, none, none, some 0⟩)], 1⟩
        ⟨12, ⟨3, 4⟩, [], 4⟩ [] true).2 =
      some ⟨"", (⟨3, 4⟩, 12), none⟩ := by
  have h := autoFitMapToMarkers_empty_noop
    ⟨⟨10, ⟨1, 2⟩, [], 3⟩, [("B", ⟨"B", ⟨8, 8⟩, ⟨"b.md"⟩, none, none, some 0⟩)], 1⟩
    ⟨12, ⟨3, 4⟩, [], 4⟩ [] (by decide) (by decide)
  exact ⟨h.1, h.2⟩

/-! ### Query-engine helper lemmas -/

theorem getFileListByQuery_nil (allFiles : List TFile)
    (fileCache : TFile → Option FileCache) :
    getFileListByQuery allFiles fileCache [] = allFiles := by
  simp [getFileListByQuery, fileMatchesQuery]

theorem fileMatchesQuery_iff (fileCache : TFile → Option FileCache)
    (tags : List String) (hne : tags ≠ []) (file : TFile) :
    fileMatchesQuery fileCache tags file = true ↔
      ∃ fc fileTags, fileCache file = some fc ∧ fc.tags = some fileTags ∧
        ∃ t ∈ fileTags, t.tag ∈ tags := by
  have hlen : tags.length > 0 := List.length_pos.mpr hne
  simp only [fileMatchesQuery, if_pos hlen]
  cases hfc : fileCache file with
  | none => simp
  | some fc =>
    obtain ⟨fts⟩ := fc
    cases fts with
    | none => simp
    | some fileTags =>
      simp only [List.any_eq_true, List.elem_eq_mem, decide_eq_true_eq]
      constructor
      · rintro ⟨t, htmem, htag⟩
        exact ⟨⟨some fileTags⟩, fileTags, rfl, rfl, t, htmem, htag⟩
      · rintro ⟨fc', fts', hfc', hts', t, htmem, htag⟩
        injection hfc' with h
        subst h
        injection hts' with h'
        subst h'
        exact ⟨t, htmem, htag⟩

theorem mem_getFileListByQuery (allFiles : List TFile)
    (fileCache : TFile → Option FileCache) (tags : List String)
    (hne : tags ≠ []) (file : TFile) :
    file ∈ getFileListByQuery allFiles fileCache tags ↔
      file ∈ allFiles ∧ ∃ fc fileTags, fileCache file = some fc ∧
        fc.tags = some fileTags ∧ ∃ t ∈ fileTags, t.tag ∈ tags := by
  rw [getFileListByQuery, List.mem_filter,
    fileMatchesQuery_iff fileCache tags hne file]

/-! ### C7 -/

/-- C7: `getFileListByQuery` returns all vault files for the empty tag
filter, and for a non-empty filter returns exactly the files having at
least one of their own cached tags in the requested set (OR semantics). -/
theorem getFileListByQuery_or_match
    (allFiles : List TFile) (fileCache : TFile → Option FileCache) :
    (getFileListByQuery allFiles fileCache [] = allFiles) ∧
    (∀ tags : List String, tags ≠ [] → ∀ file : TFile,
      (file ∈ getFileListByQuery allFiles fileCache tags ↔
        file ∈ allFiles ∧ ∃ fc fileTags, fileCache file = some fc ∧
          fc.tags = some fileTags ∧ ∃ t ∈ fileTags, t.tag ∈ tags)) :=
  ⟨getFileListByQuery_nil allFiles fileCache,
   fun tags hne file => mem_getFileListByQuery allFiles fileCache tags hne file⟩

/-- C7 witness: a file tagged `#x` is returned for the filters
`[#x, #y]` and `[#x]`, not for `[#y]` alone, and for the empty filter. -/
theorem getFileListByQuery_or_match_witness :
    getFileListByQuery [xFile] xCache [] = [xFile] ∧
    xFile ∈ getFileListByQuery [xFile] xCache ["#x", "#y"] ∧
    xFile ∈ getFileListByQuery [xFile] xCache ["#x"] ∧
    xFile ∉ getFileListByQuery [xFile] xCache ["#y"] := by
  refine ⟨(getFileListByQuery_or_match [xFile] xCache).1, ?_, ?_, ?_⟩
  · exact ((getFileListByQuery_or_match [xFile] xCache).2 ["#x", "#y"]
      (by decide) xFile).mpr
      ⟨by decide, ⟨some [⟨"#x"⟩]⟩, [⟨"#x"⟩], by decide, rfl, ⟨"#x"⟩, by decide, by decide⟩
  · exact ((getFileListByQuery_or_match [xFile] xCache).2 ["#x"]
      (by decide) xFile).mpr
      ⟨by decide, ⟨some [⟨"#x"⟩]⟩, [⟨"#x"⟩], by decide, rfl, ⟨"#x"⟩, by decide, by decide⟩
  · intro hmem
    rcases ((getFileListByQuery_or_match [xFile] xCache).2 ["#y"]
        (by decide) xFile).mp hmem with ⟨-, fc, fts, hfc, hts, t, htmem, htag⟩
    have hx : xCache xFile = some ⟨some [⟨"#x"⟩]⟩ := by decide
    rw [hx] at hfc
    injection hfc with h
    subst h
    injection hts with h'
    subst h'
    rcases List.mem_singleton.mp htmem with rfl
    revert htag
    decide

/-! ### C9 -/

/-- C9: a file with no metadata-cache entry, or whose cache entry lists
no tags (absent or empty tag array), is never returned for a non-empty
tag filter; under the empty filter it is returned whenever it is in the
vault. -/
theorem getFileListByQuery_untagged_never_matches
    (allFiles : List TFile) (fileCache : TFile → Option FileCache) (file : TFile)
    (huntagged : fileCache file = none ∨
      ∃ fc, fileCache file = some fc ∧ (fc.tags = none ∨ fc.tags = some [])) :
    (∀ tags : List String, tags ≠ [] →
       file ∉ getFileListByQuery allFiles fileCache tags) ∧
    (file ∈ allFiles → file ∈ getFileListByQuery allFiles fileCache []) := by
  constructor
  · intro tags hne hmem
    rcases (mem_getFileListByQuery allFiles fileCache tags hne file).mp hmem with
      ⟨-, fc, fts, hfc, hts, t, htmem, -⟩
    rcases huntagged with h | ⟨fc', hfc', h'⟩
    · rw [h] at hfc
      cases hfc
    · rw [hfc'] at hfc
      injection hfc with hfceq
      subst hfceq
      rcases h' with h' | h'
      · rw [h'] at hts
        cases hts
      · rw [h'] at hts
        injection hts with hts
        subst hts
        cases htmem
  · intro hmem
    rw [getFileListByQuery_nil]
    exact hmem

/-- C9 witness: a cacheless file and a file with an empty-but-present
tag array are excluded under the filter `[#y]` and included under the
empty filter. -/
theorem getFileListByQuery_untagged_never_matches_witness :
    (untaggedFile ∉ getFileListByQuery [untaggedFile] (fun _ => none) ["#y"] ∧
     untaggedFile ∈ getFileListByQuery [untaggedFile] (fun _ => none) []) ∧
    (untaggedFile ∉
       getFileListByQuery [untaggedFile] (fun _ => some ⟨some []⟩) ["#y"] ∧
     untaggedFile ∈ getFileListByQuery [untaggedFile] (fun _ => some ⟨some []⟩) []) := by
  constructor
  · have h := getFileListByQuery_untagged_never_matches [untaggedFile]
      (fun _ => none) untaggedFile (Or.inl rfl)
    exact ⟨h.1 ["#y"] (by decide), h.2 (by decide)⟩
  · have h := getFileListByQuery_untagged_never_matches [untaggedFile]
      (fun _ => some ⟨some []⟩) untaggedFile (Or.inr ⟨⟨some []⟩, rfl, Or.inr rfl⟩)
    exact ⟨h.1 ["#y"] (by decide), h.2 (by decide)⟩

/-! ### Reconciler helper lemmas: association-list `Map` operations -/

theorem mapGet_cons (j : String) (v : FileMarker) (m : MarkersMap) (k : String) :
    mapGet ((j, v) :: m) k = if j == k then some v else mapGet m k := by
  simp only [mapGet, List.find?]
  cases h : (j == k) <;> simp [h]

theorem mapGet_eq_none_of_any_false {m : MarkersMap} {k : String}
    (hany : m.any (fun p => p.1 == k) = false) : mapGet m k = none := by
  induction m with
  | nil => rfl
  | cons p rest ih =>
    obtain ⟨pk, pv⟩ := p
    have hpk : (pk == k) = false := by
      cases hpk : (pk == k) with
      | true => simp [hpk] at hany
      | false => rfl
    have hrest : rest.any (fun p => p.1 == k) = false := by
      simpa [hpk] using hany
    rw [mapGet_cons, hpk]
    simpa using ih hrest

theorem mapGet_none_forall {m : MarkersMap} {k : String}
    (h : mapGet m k = none) : ∀ p ∈ m, (p.1 == k) = false := by
  intro p hp
  have hfind : m.find? (fun p => p.1 == k) = none := by
    simpa [mapGet, Option.map_eq_none'] using h
  simpa using List.find?_eq_none.mp hfind p hp

theorem mapGet_append_of_none {m : MarkersMap} {k : String} (l : MarkersMap)
    (h : mapGet m k = none) : mapGet (m ++ l) k = mapGet l k := by
  induction m with
  | nil => rfl
  | cons p rest ih =>
    obtain ⟨pk, pv⟩ := p
    have hpk : (pk == k) = false := mapGet_none_forall h (pk, pv) (by simp)
    have hrest : mapGet rest k = none := by
      have := mapGet_cons pk pv rest k
      rw [hpk] at this
      simpa [this] using h
    rw [List.cons_append, mapGet_cons, hpk]
    simpa using ih hrest

theorem beq_comm_str (x y : String) : (x == y) = (y == x) := by
  by_cases h : x = y
  · subst h; rfl
  · rw [beq_eq_false_iff_ne.mpr h, beq_eq_false_iff_ne.mpr (Ne.symm h)]

theorem mapSet_absent {m : MarkersMap} {k : String} (v : FileMarker)
    (h : m.any (fun p => p.1 == k) = false) : mapSet m k v = m ++ [(k, v)] := by
  simp [mapSet, h]

theorem mapGet_append_single {j k : String} (v : FileMarker) (m : MarkersMap)
    (h : (j == k) = false) : mapGet (m ++ [(j, v)]) k = mapGet m k := by
  induction m with
  | nil => simp [mapGet, mapGet_cons, h]
  | cons p rest ih =>
    obtain ⟨pk, pv⟩ := p
    simp [mapGet_cons, ih]

theorem mapGet_mapSet_absent_self {m : MarkersMap} {k : String} (v : FileMarker)
    (h : m.any (fun p => p.1 == k) = false) : mapGet (mapSet m k v) k = some v := by
  rw [mapSet_absent v h,
    mapGet_append_of_none _ (mapGet_eq_none_of_any_false h), mapGet_cons]
  simp

theorem mapGet_mapDelete_ne (d : MarkersMap) {j k : String}
    (h : (j == k) = false) : mapGet (mapDelete d j) k = mapGet d k := by
  induction d with
  | nil => rfl
  | cons p rest ih =>
    obtain ⟨pk, pv⟩ := p
    cases hpj : (pk == j) with
    | true =>
      have hpkj : pk = j := by simpa using hpj
      subst hpkj
      rw [mapDelete, List.eraseP_cons_of_pos (by simpa using hpj), mapGet_cons, h]
      rfl
    | false =>
      rw [mapDelete, List.eraseP_cons_of_neg (by simp [hpj]), mapGet_cons, mapGet_cons]
      cases hpk : (pk == k) with
      | true => rfl
      | false =>
        simpa using ih

theorem mapDelete_eq_filter {d : MarkersMap} {j : String}
    (hnodup : (d.map Prod.fst).Nodup) :
    mapDelete d j = d.filter (fun p => !(p.1 == j)) := by
  induction d with
  | nil => rfl
  | cons p rest ih =>
    obtain ⟨pk, pv⟩ := p
    have hnd := List.nodup_cons.mp hnodup
    cases hpj : (pk == j) with
    | true =>
      have hpkj : pk = j := by simpa using hpj
      simp only [mapDelete, List.eraseP_cons, hpj, cond_true]
      rw [show ((pk, pv) :: rest).filter (fun p => !(p.1 == j)) =
          rest.filter (fun p => !(p.1 == j)) from by simp [hpj]]
      symm
      apply List.filter_eq_self.mpr
      intro q hq
      have hqj : q.1 ≠ j := by
        intro hqk
        exact hnd.1 (by simpa [hqk, hpkj] using List.mem_map_of_mem Prod.fst hq)
      simp [beq_eq_false_iff_ne.mpr hqj]
    | false =>
      simp only [mapDelete, List.eraseP_cons, hpj, cond_false]
      rw [show ((pk, pv) :: rest).filter (fun p => !(p.1 == j)) =
          (pk, pv) :: rest.filter (fun p => !(p.1 == j)) from by simp [hpj]]
      rw [← mapDelete]
      exact congrArg _ (ih hnd.2)

theorem mapDelete_keys_nodup {d : MarkersMap} {j : String}
    (h : (d.map Prod.fst).Nodup) : ((mapDelete d j).map Prod.fst).Nodup :=
  h.sublist ((List.eraseP_sublist d).map Prod.fst)

theorem updateMapMarkersLoop_cons_hit {drawn : MarkersMap} {marker existing : FileMarker}
    (rest : List FileMarker) (acc : MarkersMap) (ctr : Nat)
    (h : mapGet drawn marker.id = some existing) :
    updateMapMarkersLoop drawn (marker :: rest) acc ctr =
      updateMapMarkersLoop (mapDelete drawn marker.id) rest
        (mapSet acc marker.id existing) ctr := by
  simp only [updateMapMarkersLoop, h]

theorem updateMapMarkersLoop_cons_miss {drawn : MarkersMap} {marker : FileMarker}
    (rest : List FileMarker) (acc : MarkersMap) (ctr : Nat)
    (h : mapGet drawn marker.id = none) :
    updateMapMarkersLoop drawn (marker :: rest) acc ctr =
      updateMapMarkersLoop drawn rest
        (mapSet acc marker.id (createMapMarker marker ctr)) (ctr + 1) := by
  simp only [updateMapMarkersLoop, h]

theorem acc_disjoint_extend {acc : MarkersMap} {marker : FileMarker}
    {rest : List FileMarker} (v : FileMarker)
    (hnodup : ((marker :: rest).map FileMarker.id).Nodup)
    (hdisj : ∀ mF ∈ marker :: rest, acc.any (fun p => p.1 == mF.id) = false) :
    ∀ mF ∈ rest, (acc ++ [(marker.id, v)]).any (fun p => p.1 == mF.id) = false := by
  intro mF hmF
  rw [List.any_append]
  have h1 : acc.any (fun p => p.1 == mF.id) = false :=
    hdisj mF (List.mem_cons_of_mem _ hmF)
  have hne : marker.id ≠ mF.id := by
    intro he
    exact (List.nodup_cons.mp hnodup).1 (he ▸ List.mem_map_of_mem FileMarker.id hmF)
  simp [h1, beq_eq_false_iff_ne.mpr hne]

theorem updateMapMarkersLoop_preserve (fresh : List FileMarker) :
    ∀ (drawn acc : MarkersMap) (ctr : Nat) (k : String),
      (fresh.map FileMarker.id).Nodup →
      (∀ mF ∈ fresh, acc.any (fun p => p.1 == mF.id) = false) →
      (∀ mF ∈ fresh, (mF.id == k) = false) →
      mapGet (updateMapMarkersLoop drawn fresh acc ctr).1 k = mapGet acc k := by
  induction fresh with
  | nil => intro drawn acc ctr k _ _ _; rfl
  | cons marker rest ih =>
    intro drawn acc ctr k hnodup hdisj hk
    have haccm : acc.any (fun p => p.1 == marker.id) = false :=
      hdisj marker (List.mem_cons_self _ _)
    have hkm : (marker.id == k) = false := hk marker (List.mem_cons_self _ _)
    have hk' : ∀ mF ∈ rest, (mF.id == k) = false :=
      fun mF hmF => hk mF (List.mem_cons_of_mem _ hmF)
    cases hlook : mapGet drawn marker.id with
    | some existing =>
      rw [updateMapMarkersLoop_cons_hit rest acc ctr hlook,
        ih (mapDelete drawn marker.id) (mapSet acc marker.id existing) ctr k
          (List.nodup_cons.mp hnodup).2
          (by rw [mapSet_absent existing haccm]
              exact acc_disjoint_extend existing hnodup hdisj)
          hk',
        mapSet_absent existing haccm, mapGet_append_single existing acc hkm]
    | none =>
      rw [updateMapMarkersLoop_cons_miss rest acc ctr hlook,
        ih drawn (mapSet acc marker.id (createMapMarker marker ctr)) (ctr + 1) k
          (List.nodup_cons.mp hnodup).2
          (by rw [mapSet_absent _ haccm]
              exact acc_disjoint_extend _ hnodup hdisj)
          hk',
        mapSet_absent _ haccm, mapGet_append_single _ acc hkm]

theorem updateMapMarkersLoop_found (fresh : List FileMarker) :
    ∀ (drawn acc : MarkersMap) (ctr : Nat) (m old : FileMarker),
      (fresh.map FileMarker.id).Nodup →
      (∀ mF ∈ fresh, acc.any (fun p => p.1 == mF.id) = false) →
      m ∈ fresh →
      mapGet drawn m.id = some old →
      mapGet (updateMapMarkersLoop drawn fresh acc ctr).1 m.id = some old := by
  induction fresh with
  | nil => intro _ _ _ _ _ _ _ hmem _; cases hmem
  | cons marker rest ih =>
    intro drawn acc ctr m old hnodup hdisj hmem hold
    rcases List.mem_cons.mp hmem with rfl | hmrest
    · have haccm : acc.any (fun p => p.1 == m.id) = false :=
        hdisj m (List.mem_cons_self _ _)
      rw [updateMapMarkersLoop_cons_hit rest acc ctr hold,
        updateMapMarkersLoop_preserve rest (mapDelete drawn m.id)
          (mapSet acc m.id old) ctr m.id (List.nodup_cons.mp hnodup).2
          (by rw [mapSet_absent old haccm]
              exact acc_disjoint_extend old hnodup hdisj)
          (fun mF hmF => by
            have hne : mF.id ≠ m.id := fun he =>
              (List.nodup_cons.mp hnodup).1 (he ▸ List.mem_map_of_mem FileMarker.id hmF)
            exact beq_eq_false_iff_ne.mpr hne)]
      exact mapGet_mapSet_absent_self old haccm
    · have hne : (marker.id == m.id) = false := by
        have hmid : m.id ∈ rest.map FileMarker.id :=
          List.mem_map_of_mem FileMarker.id hmrest
        exact beq_eq_false_iff_ne.mpr
          (fun he => (List.nodup_cons.mp hnodup).1 (he ▸ hmid))
      cases hlook : mapGet drawn marker.id with
      | some existing =>
        rw [updateMapMarkersLoop_cons_hit rest acc ctr hlook]
        exact ih (mapDelete drawn marker.id) (mapSet acc marker.id existing) ctr m old
          (List.nodup_cons.mp hnodup).2
          (by rw [mapSet_absent existing (hdisj marker (List.mem_cons_self _ _))]
              exact acc_disjoint_extend existing hnodup hdisj)
          hmrest
          (by rw [mapGet_mapDelete_ne drawn hne]; exact hold)
      | none =>
        rw [updateMapMarkersLoop_cons_miss rest acc ctr hlook]
        exact ih drawn (mapSet acc marker.id (createMapMarker marker ctr)) (ctr + 1) m old
          (List.nodup_cons.mp hnodup).2
          (by rw [mapSet_absent _ (hdisj marker (List.mem_cons_self _ _))]
              exact acc_disjoint_extend _ hnodup hdisj)
          hmrest hold

theorem updateMapMarkersLoop_keys (fresh : List FileMarker) :
    ∀ (drawn acc : MarkersMap) (ctr : Nat),
      (fresh.map FileMarker.id).Nodup →
      (∀ mF ∈ fresh, acc.any (fun p => p.1 == mF.id) = false) →
      (updateMapMarkersLoop drawn fresh acc ctr).1.map Prod.fst =
        acc.map Prod.fst ++ fresh.map FileMarker.id := by
  induction fresh with
  | nil => intro drawn acc ctr _ _; simp [updateMapMarkersLoop]
  | cons marker rest ih =>
    intro drawn acc ctr hnodup hdisj
    have haccm : acc.any (fun p => p.1 == marker.id) = false :=
      hdisj marker (List.mem_cons_self _ _)
    cases hlook : mapGet drawn marker.id with
    | some existing =>
      rw [updateMapMarkersLoop_cons_hit rest acc ctr hlook,
        ih (mapDelete drawn marker.id) (mapSet acc marker.id existing) ctr
          (List.nodup_cons.mp hnodup).2
          (by rw [mapSet_absent existing haccm]
              exact acc_disjoint_extend existing hnodup hdisj),
        mapSet_absent existing haccm]
      simp
    | none =>
      rw [updateMapMarkersLoop_cons_miss rest acc ctr hlook,
        ih drawn (mapSet acc marker.id (createMapMarker marker ctr)) (ctr + 1)
          (List.nodup_cons.mp hnodup).2
          (by rw [mapSet_absent _ haccm]
              exact acc_disjoint_extend _ hnodup hdisj),
        mapSet_absent _ haccm]
      simp

theorem updateMapMarkersLoop_remaining (fresh : List FileMarker) :
    ∀ (drawn acc : MarkersMap) (ctr : Nat),
      (drawn.map Prod.fst).Nodup →
      (updateMapMarkersLoop drawn fresh acc ctr).2.1 =
        drawn.filter (fun p => !(fresh.any (fun mF => mF.id == p.1))) := by
  induction fresh with
  | nil => intro drawn acc ctr _; simp [updateMapMarkersLoop]
  | cons marker rest ih =>
    intro drawn acc ctr hnodup
    cases hlook : mapGet drawn marker.id with
    | some existing =>
      rw [updateMapMarkersLoop_cons_hit rest acc ctr hlook,
        ih (mapDelete drawn marker.id) (mapSet acc marker.id existing) ctr
          (mapDelete_keys_nodup hnodup),
        mapDelete_eq_filter hnodup, List.filter_filter]
      apply List.filter_congr
      intro p hp
      cases hpm : (marker.id == p.1) with
      | true =>
        have hpm' : (p.1 == marker.id) = true := by rw [beq_comm_str]; exact hpm
        simp [hpm, hpm']
      | false =>
        have hpm' : (p.1 == marker.id) = false := by rw [beq_comm_str]; exact hpm
        simp [hpm, hpm']
    | none =>
      rw [updateMapMarkersLoop_cons_miss rest acc ctr hlook,
        ih drawn (mapSet acc marker.id (createMapMarker marker ctr)) (ctr + 1) hnodup]
      apply List.filter_congr
      intro p hp
      have h1 : (p.1 == marker.id) = false := mapGet_none_forall hlook p hp
      have h2 : (marker.id == p.1) = false := by rw [beq_comm_str]; exact h1
      simp [h2]

/-! ### C4 -/

/-- C4: in a reconciliation pass whose fresh marker ids are pairwise
distinct, every fresh id already present in the drawn map is mapped by
the result to the exact drawn entry it had before — descriptor and live
rendered handle carried forward verbatim, not newly created — regardless
of the fresh descriptor's coordinate. -/
theorem updateMapMarkers_identity_preservation
    (drawn : MarkersMap) (fresh : List FileMarker) (ctr : Nat)
    (hfresh : (fresh.map FileMarker.id).Nodup)
    (m : FileMarker) (hm : m ∈ fresh) (old : FileMarker)
    (hold : mapGet drawn m.id = some old) :
    mapGet (updateMapMarkers drawn fresh ctr).1 m.id = some old :=
  updateMapMarkersLoop_found fresh drawn [] ctr m old hfresh
    (fun _ _ => rfl) hm hold

/-- C4 witness: id "A" drawn with handle 5; the fresh list carries id
"A" at a different coordinate; the result still maps "A" to the old
entry with handle 5. -/
theorem updateMapMarkers_identity_preservation_witness :
    mapGet (updateMapMarkers
        [("A", ⟨"A", ⟨1, 1⟩, ⟨"a.md"⟩, none, none, some 5⟩)]
        [⟨"A", ⟨2, 2⟩, ⟨"a.md"⟩, none, none, none⟩] 9).1
        (FileMarker.id ⟨"A", ⟨2, 2⟩, ⟨"a.md"⟩, none, none, none⟩) =
      some ⟨"A", ⟨1, 1⟩, ⟨"a.md"⟩, none, none, some 5⟩ :=
  updateMapMarkers_identity_preservation
    [("A", ⟨"A", ⟨1, 1⟩, ⟨"a.md"⟩, none, none, some 5⟩)]
    [⟨"A", ⟨2, 2⟩, ⟨"a.md"⟩, none, none, none⟩] 9 (by decide)
    ⟨"A", ⟨2, 2⟩, ⟨"a.md"⟩, none, none, none⟩ (by decide)
    ⟨"A", ⟨1, 1⟩, ⟨"a.md"⟩, none, none, some 5⟩ (by decide)

/-! ### C5 -/

/-- C5: after a reconciliation pass with pairwise-distinct fresh ids over
a well-formed drawn map, the resulting authoritative map's keys are
exactly the fresh ids (in order, each exactly once), and the handles
removed from the drawing surface are exactly those of the drawn entries
whose id is absent from the fresh list, each removed exactly once. -/
theorem updateMapMarkers_stale_removal
    (drawn : MarkersMap) (fresh : List FileMarker) (ctr : Nat)
    (hfresh : (fresh.map FileMarker.id).Nodup)
    (hdrawn : (drawn.map Prod.fst).Nodup) :
    (updateMapMarkers drawn fresh ctr).1.map Prod.fst = fresh.map FileMarker.id ∧
    (updateMapMarkers drawn fresh ctr).2.1 =
      (drawn.filter (fun p => !(fresh.any (fun mF => mF.id == p.1)))).map
        (fun p => p.2.mapMarker) := by
  constructor
  · have h := updateMapMarkersLoop_keys fresh drawn [] ctr hfresh (fun _ _ => rfl)
    simpa [updateMapMarkers] using h
  · have h := updateMapMarkersLoop_remaining fresh drawn [] ctr hdrawn
    simp [updateMapMarkers, h]

/-- C5 witness: drawn set with ids "A" (handle 0) and "B" (handle 1) and
a fresh list containing only "A": the result's ids are exactly ["A"] and
exactly B's handle 1 is removed, once. -/
theorem updateMapMarkers_stale_removal_witness :
    (updateMapMarkers
        [("A", ⟨"A", ⟨1, 1⟩, ⟨"a.md"⟩, none, none, some 0⟩),
         ("B", ⟨"B", ⟨2, 2⟩, ⟨"b.md"⟩, none, none, some 1⟩)]
        [⟨"A", ⟨1, 1⟩, ⟨"a.md"⟩, none, none, none⟩] 7).1.map Prod.fst = ["A"] ∧
    (updateMapMarkers
        [("A", ⟨"A", ⟨1, 1⟩, ⟨"a.md"⟩, none, none, some 0⟩),
         ("B", ⟨"B", ⟨2, 2⟩, ⟨"b.md"⟩, none, none, some 1⟩)]
        [⟨"A", ⟨1, 1⟩, ⟨"a.md"⟩, none, none, none⟩] 7).2.1 = [some 1] := by
  have h := updateMapMarkers_stale_removal
    [("A", ⟨"A", ⟨1, 1⟩, ⟨"a.md"⟩, none, none, some 0⟩),
     ("B", ⟨"B", ⟨2, 2⟩, ⟨"b.md"⟩, none, none, some 1⟩)]
    [⟨"A", ⟨1, 1⟩, ⟨"a.md"⟩, none, none, none⟩] 7 (by decide) (by decide)
  exact ⟨h.1.trans (by decide), h.2.trans (by decide)⟩
